import Mathlib

/-!
Shallow embedding of the learning-core of `src/learn.ts` (plugin "loom"):
the node data model, the review scheduler (`scheduleReview`), the unlock
resolver (`unlockEligibleNodes`) and the next-node selector (`pickNextNode`),
together with the creation-time defaults of `buildNodeContents` and the
status inference of `loadNodes`.

Modelling conventions:
  * TypeScript `number` values that the core treats as integers
    (familiarity, srsStage, masteryThreshold, interval day counts) are `Int`.
  * ISO-8601 timestamp strings that the code only ever compares through
    `new Date(s).getTime()` are modelled as `Int` milliseconds since the
    Unix epoch; an absent (`undefined`/empty) timestamp is `Option.none`.
  * `scheduleReview` and `pickNextNode` read the clock with `new Date()`;
    the embedding passes that instant in as an explicit `now : Int`.
  * JavaScript truthiness of `x || y` on numbers (`undefined` and `0` are
    falsy) and on strings (`undefined` and `""` are falsy) is embedded by
    `jsOrNum` / `jsOrStr` below.
-/

namespace Loom

/-- The five node statuses of `LearnNode["status"]` in `learn.ts`. -/
inductive Status where
  | locked
  | available
  | inProgress
  | mastered
  | paused
deriving DecidableEq, Repr

/-- The four review ratings accepted by `scheduleReview`. -/
inductive Rating where
  | again
  | hard
  | good
  | easy
deriving DecidableEq, Repr

/-- The `LearnNode` record of `learn.ts`, restricted to the fields the
scheduling core reads or writes.  Timestamps are epoch milliseconds. -/
structure LearnNode where
  id : String
  title : String
  status : Status
  tags : List String
  prerequisites : List String
  unlocks : List String
  familiarity : Int
  srsStage : Int
  lastReviewed : Option Int
  nextReview : Option Int
  created : Option Int
  body : String
deriving DecidableEq, Repr

/-- `clamp(value, min, max) = Math.min(max, Math.max(min, value))`. -/
def clamp (value lo hi : Int) : Int :=
  min hi (max lo value)

/-- JavaScript array read `l[i]`: `undefined` (here `none`) when the index
is negative or at/after the length. -/
def jsIndex (l : List Int) (i : Int) : Option Int :=
  if h : 0 ≤ i ∧ i.toNat < l.length then some (l.get ⟨i.toNat, h.2⟩) else none

/-- JavaScript `a || b` on a possibly-undefined number: `b` when `a` is
`undefined` or `0` (both falsy), otherwise the value of `a`. -/
def jsOrNum (a : Option Int) (b : Int) : Int :=
  match a with
  | none => b
  | some v => if v = 0 then b else v

/-- JavaScript `a || b` on a possibly-undefined string: `b` when `a` is
`undefined` or `""`, otherwise the value of `a`. -/
def jsOrStr (a : Option String) (b : String) : String :=
  match a with
  | none => b
  | some s => if s = "" then b else s

/-- Milliseconds in one UTC day; `setUTCDate(getUTCDate() + d)` advances a
JavaScript `Date` by exactly `d * msPerDay` milliseconds. -/
def msPerDay : Int := 86400000

/-- `scheduleReview(node, rating, intervals, masteryThreshold)` of
`learn.ts` (lines 394-426), with the internally sampled `new Date()`
passed in as `now` (epoch ms).  The interval lookup embeds
`intervals[next.srsStage] || intervals[intervals.length - 1] || 1`. -/
def scheduleReview (node : LearnNode) (rating : Rating) (intervals : List Int)
    (masteryThreshold : Int) (now : Int) : LearnNode :=
  let maxStage : Int := (intervals.length : Int) - 1
  let familiarityDelta : Int :=
    match rating with
    | .again => -1
    | .hard => 0
    | .good => 1
    | .easy => 2
  let familiarity := clamp (node.familiarity + familiarityDelta) 0 5
  let srsStage :=
    match rating with
    | .again => max 0 (node.srsStage - 1)
    | .hard => clamp node.srsStage 0 maxStage
    | .good => clamp (node.srsStage + 1) 0 maxStage
    | .easy => clamp (node.srsStage + 2) 0 maxStage
  let intervalDays :=
    jsOrNum (jsIndex intervals srsStage)
      (jsOrNum (jsIndex intervals ((intervals.length : Int) - 1)) 1)
  { node with
    familiarity := familiarity
    srsStage := srsStage
    lastReviewed := some now
    nextReview := some (now + intervalDays * msPerDay)
    status := if masteryThreshold ≤ familiarity then .mastered else .inProgress }

/-- The lookup `byId = new Map(records.map(r => [r.node.id, r]))` of
`unlockEligibleNodes`: a JavaScript `Map` built from a key/value list keeps
the last entry for each key, so the lookup returns the last node in the
list carrying the id (or `none`). -/
def byId (state : List LearnNode) (id : String) : Option LearnNode :=
  state.foldl (fun acc n => if n.id = id then some n else acc) none

/-- The `meetsPrereqs` check of `unlockEligibleNodes` (lines 341-345):
every prerequisite id must resolve through `byId`, and the resolved node
must be `mastered` or have `familiarity >= masteryThreshold`; a missing id
fails the check. -/
def meetsPrereqs (state : List LearnNode) (masteryThreshold : Int)
    (n : LearnNode) : Bool :=
  n.prerequisites.all fun id =>
    match byId state id with
    | none => false
    | some prereq =>
        decide (prereq.status = .mastered) ||
        decide (masteryThreshold ≤ prereq.familiarity)

/-- The in-place write `record.node.status = "available"`. -/
def setAvailable (n : LearnNode) : LearnNode :=
  { n with status := .available }

/-- The `records.forEach` pass of `unlockEligibleNodes`, as a zipper:
`done` holds the records already visited (with any in-place status writes
applied) and the second argument the records still to visit.  At each
record's turn the `byId` lookup sees the current state `done ++ n :: rest`,
exactly as the mutable `Map` of record references does in the source.
Returns the final state of all records and the `unlocked` output list. -/
def unlockGoZ (masteryThreshold : Int) :
    List LearnNode → List LearnNode → List LearnNode × List LearnNode
  | done, [] => (done, [])
  | done, n :: rest =>
    if decide (n.status = .locked) &&
        meetsPrereqs (done ++ n :: rest) masteryThreshold n then
      let n' := setAvailable n
      let r := unlockGoZ masteryThreshold (done ++ [n']) rest
      (r.1, n' :: r.2)
    else
      unlockGoZ masteryThreshold (done ++ [n]) rest

/-- `unlockEligibleNodes(records, masteryThreshold)` of `learn.ts`
(lines 332-353).  The first component is the post-call state of every
record (the source mutates statuses in place); the second is the returned
`unlocked` list, in visit order. -/
def unlockEligibleNodes (records : List LearnNode) (masteryThreshold : Int) :
    List LearnNode × List LearnNode :=
  unlockGoZ masteryThreshold [] records

/-- Modelled from the spec (§4.4.1 single-pass semantics): evaluate each
locked node's prerequisite check against a snapshot of the node states
taken before the call, flip exactly the passing locked nodes to
`available`, and return exactly those flipped nodes. -/
def unlockSnapshot (records : List LearnNode) (masteryThreshold : Int) :
    List LearnNode × List LearnNode :=
  (records.map fun n =>
     if decide (n.status = .locked) && meetsPrereqs records masteryThreshold n
     then setAvailable n else n,
   (records.filter fun n =>
     decide (n.status = .locked) && meetsPrereqs records masteryThreshold n).map
     setAvailable)

/-- The result record of `pickNextNode`. -/
structure NextNodeResult where
  node : Option LearnNode
  reason : Option String
deriving DecidableEq, Repr

/-- Strict lexicographic order on sort keys; `ltLex (key a) (key b)`
holds exactly when the source comparator returns a negative number on
`(a, b)`. -/
def ltLex (a b : Int × Int) : Bool :=
  decide (a.1 < b.1) || (decide (a.1 = b.1) && decide (a.2 < b.2))

/-- `l.foldl` step of `selectBy`: keep the accumulator unless the next
element is strictly smaller. -/
def selectFold (key : LearnNode → Int × Int) (a : LearnNode)
    (l : List LearnNode) : LearnNode :=
  l.foldl (fun acc x => if ltLex (key x) (key acc) then x else acc) a

/-- `list.sort(cmp)[0]` of the source, for a comparator that compares the
keys: JavaScript `Array.prototype.sort` is stable, so the first element of
the sorted array is the first element, in input order, whose key is
minimal — which is what the strict-improvement fold computes. -/
def selectBy (key : LearnNode → Int × Int) : List LearnNode → Option LearnNode
  | [] => none
  | n :: rest => some (selectFold key n rest)

/-- The first element of `l`, in input order, whose key is minimal over
`l` (reference form used to state the tie-break policy). -/
def firstMinBy (key : LearnNode → Int × Int) (l : List LearnNode) :
    Option LearnNode :=
  l.find? fun n => l.all fun m => ! ltLex (key m) (key n)

/-- The `due` membership test (lines 358-361): a `nextReview` must be
present and satisfy `new Date(nextReview) <= now`. -/
def dueFilter (now : Int) (n : LearnNode) : Bool :=
  match n.nextReview with
  | none => false
  | some t => decide (t ≤ now)

/-- Sort key of the due tier: `new Date(a.node.nextReview || 0).getTime()`
(no secondary key). -/
def dueKey (n : LearnNode) : Int × Int :=
  (n.nextReview.getD 0, 0)

/-- Sort key of the available tier: familiarity, then
`created ? new Date(created).getTime() : 0`. -/
def availKey (n : LearnNode) : Int × Int :=
  (n.familiarity, n.created.getD 0)

/-- Sort key of the in-progress tier: familiarity only. -/
def progKey (n : LearnNode) : Int × Int :=
  (n.familiarity, 0)

/-- `records.filter(r => r.node.status !== "locked")`. -/
def unlockedNodes (records : List LearnNode) : List LearnNode :=
  records.filter fun n => decide (n.status ≠ .locked)

/-- The due tier list of `pickNextNode`. -/
def dueNodes (records : List LearnNode) (now : Int) : List LearnNode :=
  (unlockedNodes records).filter (dueFilter now)

/-- The available tier list of `pickNextNode`. -/
def availableNodes (records : List LearnNode) : List LearnNode :=
  (unlockedNodes records).filter fun n => decide (n.status = .available)

/-- The in-progress tier list of `pickNextNode`. -/
def inProgressNodes (records : List LearnNode) : List LearnNode :=
  (unlockedNodes records).filter fun n => decide (n.status = .inProgress)

/-- `pickNextNode(records)` of `learn.ts` (lines 355-392), with the
internally sampled `new Date()` passed in as `now` (epoch ms). -/
def pickNextNode (records : List LearnNode) (now : Int) : NextNodeResult :=
  let due := dueNodes records now
  if 0 < due.length then
    { node := selectBy dueKey due, reason := some "due-review" }
  else
    let available := availableNodes records
    if 0 < available.length then
      { node := selectBy availKey available, reason := some "new-available" }
    else
      let inProgress := inProgressNodes records
      if 0 < inProgress.length then
        { node := selectBy progKey inProgress, reason := some "continue" }
      else
        { node := none, reason := none }

/-- A character the regex class `[a-z0-9]` accepts. -/
def isSlugChar (c : Char) : Bool :=
  (decide ('a' ≤ c) && decide (c ≤ 'z')) ||
  (decide ('0' ≤ c) && decide (c ≤ '9'))

/-- The global replace `.replace(/[^a-z0-9]+/g, "-")`: each maximal run of
non-matching characters becomes a single `-`.  The flag records whether we
are inside such a run. -/
def slugReplace (inRun : Bool) : List Char → List Char
  | [] => []
  | c :: rest =>
    if isSlugChar c then c :: slugReplace false rest
    else if inRun then slugReplace true rest
    else '-' :: slugReplace true rest

/-- `slugify(value)` of `learn.ts` (lines 135-141): lower-case, collapse
non-alphanumeric runs to `-`, strip leading/trailing `-`, keep at most 80
characters. -/
def slugify (value : String) : String :=
  let lowered := value.data.map Char.toLower
  let replaced := slugReplace false lowered
  let stripped := (replaced.dropWhile (· = '-')).reverse.dropWhile (· = '-')
  String.mk (stripped.reverse.take 80)

/-- The `NodeInput` fields consumed by `buildNodeContents`. -/
structure NodeInput where
  title : String
  body : String
  summary : Option String
  path : Option String
  type : Option String
  status : Option String
  tags : Option (List String)
  prerequisites : Option (List String)
  unlocks : Option (List String)
  id : Option String
deriving DecidableEq, Repr

/-- The front-matter `data` record written by `buildNodeContents` (the new
node file's metadata). -/
structure NodeFileData where
  id : String
  title : String
  summary : Option String
  path : Option String
  type : String
  status : String
  tags : List String
  prerequisites : List String
  unlocks : List String
  familiarity : Int
  srs_stage : Int
  last_reviewed : Option Int
  next_review : Option Int
  created : String
  updated : String
deriving DecidableEq, Repr

/-- `buildNodeContents(input)` of `learn.ts` (lines 187-213), with the
internally sampled `new Date().toISOString()` passed in as `now`.  Note
`status` is `input.status || "available"`, independent of
`prerequisites`. -/
def buildNodeContents (input : NodeInput) (now : String) : NodeFileData :=
  let pathSlug := match input.path with
    | none => "general"
    | some p => if p = "" then "general" else slugify p
  let nodeSlug := slugify input.title
  let id := jsOrStr input.id (pathSlug ++ "/" ++ nodeSlug)
  let status := jsOrStr input.status "available"
  { id := id
    title := input.title
    summary := input.summary
    path := input.path
    type := jsOrStr input.type "concept"
    status := status
    tags := input.tags.getD []
    prerequisites := input.prerequisites.getD []
    unlocks := input.unlocks.getD []
    familiarity := 0
    srs_stage := 0
    last_reviewed := none
    next_review := none
    created := now
    updated := now }

/-- `normalizeStatus(status)` of `learn.ts` (lines 242-249); a missing or
falsy (empty) string and any unknown string map to `available`. -/
def normalizeStatus (status : Option String) : Status :=
  match status with
  | none => .available
  | some s =>
    if s = "" then .available
    else if s = "locked" then .locked
    else if s = "in-progress" then .inProgress
    else if s = "mastered" then .mastered
    else if s = "paused" then .paused
    else .available

/-- The status computation of `loadNodes` (line 276):
`normalizeStatus(data.status || (prerequisites.length ? "locked" :
"available"))`. -/
def loadNodeStatus (dataStatus : Option String) (prerequisites : List String) :
    Status :=
  normalizeStatus (some (jsOrStr dataStatus
    (if prerequisites.length ≠ 0 then "locked" else "available")))

/-! Concrete nodes and inputs used in scenario theorems and witnesses.
`t0` is 2024-01-01T00:00:00Z in epoch milliseconds. -/

/-- 2024-01-01T00:00:00Z in epoch milliseconds. -/
def t0 : Int := 1704067200000

/-- Node C of end-to-end scenarios 3 and 4: familiarity 2, srsStage 1. -/
def nodeC : LearnNode :=
  { id := "general/c", title := "C", status := .inProgress, tags := [],
    prerequisites := [], unlocks := [], familiarity := 2, srsStage := 1,
    lastReviewed := none, nextReview := none, created := none, body := "" }

/-- A node whose stored srsStage (5) lies beyond the interval table. -/
def nodeHigh : LearnNode := { nodeC with id := "general/high", srsStage := 5 }

/-- Scenario 2: node A, mastered, no prerequisites. -/
def nodeA : LearnNode :=
  { nodeC with id := "a", status := .mastered, familiarity := 5 }

/-- Scenario 2: node B, locked behind node A. -/
def nodeB : LearnNode :=
  { nodeC with id := "b", status := .locked, prerequisites := ["a"] }

/-- Scenario 5: node D, available, familiarity 1, created 2023-01-01. -/
def nodeD : LearnNode :=
  { nodeC with
    id := "d"
    status := .available
    familiarity := 1
    created := some 1672531200000 }

/-- Scenario 5: node E, in progress, familiarity 0. -/
def nodeE : LearnNode :=
  { nodeC with id := "e", status := .inProgress, familiarity := 0 }

/-- A node due for review at time 100 ms. -/
def nodeF : LearnNode :=
  { nodeC with id := "f", status := .inProgress, nextReview := some 100 }

/-- A `buildNodeContents` input declaring a prerequisite but no explicit
status. -/
def inputB : NodeInput :=
  { title := "B", body := "", summary := none, path := none, type := none,
    status := none, tags := none, prerequisites := some ["a"],
    unlocks := none, id := none }

/-! ## Review scheduler theorems -/

theorem clamp_mem (x lo hi : Int) (h : lo ≤ hi) :
    lo ≤ clamp x lo hi ∧ clamp x lo hi ≤ hi := by
  unfold clamp; omega

/-- C1 counterexample: with rating `again` the stage update is
`Math.max(0, stage - 1)` with no upper clamp, so a stored `srsStage` of 5
against the four intervals `[1,3,7,14]` comes back as 4, outside
`[0, 3]` — the claim fails for rating `again` at overflowing inputs. -/
theorem scheduleReview_srsStage_overflow_cex :
    (scheduleReview nodeHigh .again [1, 3, 7, 14] 4 0).srsStage = 4 ∧
    ¬ ((scheduleReview nodeHigh .again [1, 3, 7, 14] 4 0).srsStage ≤
        (([1, 3, 7, 14] : List Int).length : Int) - 1) := by
  decide

/-- C1 (amended): after `scheduleReview` the srsStage lies within
`[0, len(intervals) - 1]` for every non-empty `intervals` and every
starting stage, for the ratings `hard`, `good` and `easy`; for rating
`again` (whose update `max(0, stage - 1)` is not clamped above) the bound
additionally needs the starting stage to be at most `len(intervals)` — in
particular it holds whenever the starting stage is already in range. -/
theorem scheduleReview_srsStage_in_range (node : LearnNode) (rating : Rating)
    (intervals : List Int) (masteryThreshold now : Int)
    (h1 : intervals ≠ [])
    (h2 : rating = .again → node.srsStage ≤ (intervals.length : Int)) :
    0 ≤ (scheduleReview node rating intervals masteryThreshold now).srsStage ∧
    (scheduleReview node rating intervals masteryThreshold now).srsStage ≤
      (intervals.length : Int) - 1 := by
  have hlen : 1 ≤ (intervals.length : Int) := by
    have h0 : 0 < intervals.length := List.length_pos.mpr h1
    exact_mod_cast h0
  cases rating with
  | again =>
      have hs := h2 rfl
      constructor
      · show (0 : Int) ≤ max 0 (node.srsStage - 1)
        omega
      · show max 0 (node.srsStage - 1) ≤ (intervals.length : Int) - 1
        omega
  | hard =>
      constructor
      · show (0 : Int) ≤ clamp node.srsStage 0 ((intervals.length : Int) - 1)
        unfold clamp; omega
      · show clamp node.srsStage 0 ((intervals.length : Int) - 1) ≤
          (intervals.length : Int) - 1
        unfold clamp; omega
  | good =>
      constructor
      · show (0 : Int) ≤ clamp (node.srsStage + 1) 0 ((intervals.length : Int) - 1)
        unfold clamp; omega
      · show clamp (node.srsStage + 1) 0 ((intervals.length : Int) - 1) ≤
          (intervals.length : Int) - 1
        unfold clamp; omega
  | easy =>
      constructor
      · show (0 : Int) ≤ clamp (node.srsStage + 2) 0 ((intervals.length : Int) - 1)
        unfold clamp; omega
      · show clamp (node.srsStage + 2) 0 ((intervals.length : Int) - 1) ≤
          (intervals.length : Int) - 1
        unfold clamp; omega

/-- Witness for the amended C1 bound, at node C with rating `again` and
the scenario interval table. -/
theorem scheduleReview_srsStage_in_range_witness :
    0 ≤ (scheduleReview nodeC .again [1, 3, 7, 14] 4 0).srsStage ∧
    (scheduleReview nodeC .again [1, 3, 7, 14] 4 0).srsStage ≤
      (([1, 3, 7, 14] : List Int).length : Int) - 1 :=
  scheduleReview_srsStage_in_range nodeC .again [1, 3, 7, 14] 4 0
    (by decide) (fun _ => by decide)

/-- C3: end-to-end scenarios 3 and 4.  Node C (familiarity 2, srsStage 1)
with intervals `[1,3,7,14]`, threshold 4, now = 2024-01-01T00:00:00Z
(`t0`): rating `good` gives familiarity 3, stage 2, next review
2024-01-08T00:00:00Z (epoch ms 1704672000000), status in-progress; rating
`again` gives familiarity 1, stage 0, next review 2024-01-02T00:00:00Z
(epoch ms 1704153600000), status in-progress; `lastReviewed = now` in
both cases. -/
theorem scheduleReview_scenario_nodeC :
    (scheduleReview nodeC .good [1, 3, 7, 14] 4 t0).familiarity = 3 ∧
    (scheduleReview nodeC .good [1, 3, 7, 14] 4 t0).srsStage = 2 ∧
    (scheduleReview nodeC .good [1, 3, 7, 14] 4 t0).nextReview =
      some 1704672000000 ∧
    (scheduleReview nodeC .good [1, 3, 7, 14] 4 t0).status = .inProgress ∧
    (scheduleReview nodeC .good [1, 3, 7, 14] 4 t0).lastReviewed = some t0 ∧
    (scheduleReview nodeC .again [1, 3, 7, 14] 4 t0).familiarity = 1 ∧
    (scheduleReview nodeC .again [1, 3, 7, 14] 4 t0).srsStage = 0 ∧
    (scheduleReview nodeC .again [1, 3, 7, 14] 4 t0).nextReview =
      some 1704153600000 ∧
    (scheduleReview nodeC .again [1, 3, 7, 14] 4 t0).status = .inProgress ∧
    (scheduleReview nodeC .again [1, 3, 7, 14] 4 t0).lastReviewed = some t0 := by
  decide

/-- C4: for every input node (any prior status, `paused` included), every
rating, intervals and threshold, the scheduled node's status is `mastered`
exactly when its updated familiarity reaches the threshold and
`in-progress` otherwise — a function of updated familiarity and threshold
alone — and `lastReviewed`/`nextReview` are always set. -/
theorem scheduleReview_status_total (node : LearnNode) (rating : Rating)
    (intervals : List Int) (masteryThreshold now : Int) :
    (scheduleReview node rating intervals masteryThreshold now).status =
      (if masteryThreshold ≤
          (scheduleReview node rating intervals masteryThreshold now).familiarity
        then Status.mastered else Status.inProgress) ∧
    (scheduleReview node rating intervals masteryThreshold now).lastReviewed =
      some now ∧
    ((scheduleReview node rating intervals masteryThreshold now).nextReview).isSome
      = true :=
  ⟨rfl, rfl, rfl⟩

/-- C10: with an empty interval table and a rating other than `again`,
the clamp's upper bound `intervals.length - 1 = -1` wins over the lower
bound `0`, so the returned srsStage is `-1`, while the review delay falls
back to 1 day. -/
theorem scheduleReview_empty_intervals (node : LearnNode) (rating : Rating)
    (masteryThreshold now : Int) (h : rating ≠ .again) :
    (scheduleReview node rating [] masteryThreshold now).srsStage = -1 ∧
    (scheduleReview node rating [] masteryThreshold now).nextReview =
      some (now + 86400000) := by
  cases rating with
  | again => exact absurd rfl h
  | hard =>
      constructor
      · show clamp node.srsStage 0 ((([] : List Int).length : Int) - 1) = -1
        unfold clamp; simp
      · show some (now + jsOrNum (jsIndex [] _)
            (jsOrNum (jsIndex [] _) 1) * msPerDay) = some (now + 86400000)
        simp [jsIndex, jsOrNum, msPerDay]
  | good =>
      constructor
      · show clamp (node.srsStage + 1) 0 ((([] : List Int).length : Int) - 1) = -1
        unfold clamp; simp
      · show some (now + jsOrNum (jsIndex [] _)
            (jsOrNum (jsIndex [] _) 1) * msPerDay) = some (now + 86400000)
        simp [jsIndex, jsOrNum, msPerDay]
  | easy =>
      constructor
      · show clamp (node.srsStage + 2) 0 ((([] : List Int).length : Int) - 1) = -1
        unfold clamp; simp
      · show some (now + jsOrNum (jsIndex [] _)
            (jsOrNum (jsIndex [] _) 1) * msPerDay) = some (now + 86400000)
        simp [jsIndex, jsOrNum, msPerDay]

/-- Witness for C10 at node C with rating `good`. -/
theorem scheduleReview_empty_intervals_witness :
    (scheduleReview nodeC .good [] 4 0).srsStage = -1 ∧
    (scheduleReview nodeC .good [] 4 0).nextReview = some (0 + 86400000) :=
  scheduleReview_empty_intervals nodeC .good 4 0 (by decide)

/-! ## Unlock resolver theorems

The single pass mutates statuses while it iterates, but the only write it
performs is `locked → available`, which the prerequisite predicate (it
looks solely at `mastered` and `familiarity`) cannot observe.  `simR`
captures what the predicate can observe; the pass keeps every record
`simR`-equal to its pre-call snapshot. -/

/-- Two nodes indistinguishable to the prerequisite check: same id, same
familiarity, and agreeing on being `mastered`. -/
def simR (a b : LearnNode) : Prop :=
  a.id = b.id ∧ a.familiarity = b.familiarity ∧
    (a.status = .mastered ↔ b.status = .mastered)

theorem simR_refl (a : LearnNode) : simR a a :=
  ⟨rfl, rfl, Iff.rfl⟩

/-- Pointwise `simR` on lists. -/
inductive SimL : List LearnNode → List LearnNode → Prop
  | nil : SimL [] []
  | cons {a b : LearnNode} {l l' : List LearnNode} :
      simR a b → SimL l l' → SimL (a :: l) (b :: l')

theorem SimL_refl (l : List LearnNode) : SimL l l := by
  induction l with
  | nil => exact .nil
  | cons a l ih => exact .cons (simR_refl a) ih

theorem SimL_append {l₁ l₂ m₁ m₂ : List LearnNode}
    (h1 : SimL l₁ l₂) (h2 : SimL m₁ m₂) : SimL (l₁ ++ m₁) (l₂ ++ m₂) := by
  induction h1 with
  | nil => exact h2
  | cons hab _ ih => exact .cons hab ih

/-- `simR` lifted to the result of a lookup. -/
def optSim : Option LearnNode → Option LearnNode → Prop
  | none, none => True
  | some a, some b => simR a b
  | _, _ => False

theorem byId_sim_aux (id : String) {l l' : List LearnNode} (h : SimL l l') :
    ∀ {acc acc' : Option LearnNode}, optSim acc acc' →
      optSim (l.foldl (fun acc n => if n.id = id then some n else acc) acc)
        (l'.foldl (fun acc n => if n.id = id then some n else acc) acc') := by
  induction h with
  | nil => intro acc acc' hacc; exact hacc
  | @cons a b tl tl' hab htail ih =>
      intro acc acc' hacc
      simp only [List.foldl_cons]
      apply ih
      obtain ⟨hid, hfam, hmast⟩ := hab
      rw [hid]
      by_cases hcase : b.id = id
      · rw [if_pos hcase, if_pos hcase]
        exact ⟨hid, hfam, hmast⟩
      · rw [if_neg hcase, if_neg hcase]
        exact hacc

theorem byId_sim (id : String) {l l' : List LearnNode} (h : SimL l l') :
    optSim (byId l id) (byId l' id) :=
  byId_sim_aux id h trivial

/-- One prerequisite's check only sees the `simR` data of the state. -/
theorem prereqCheck_sim {l l' : List LearnNode} (masteryThreshold : Int)
    (h : SimL l l') (i : String) :
    (match byId l i with
     | none => false
     | some prereq =>
         decide (prereq.status = Status.mastered) ||
         decide (masteryThreshold ≤ prereq.familiarity)) =
    (match byId l' i with
     | none => false
     | some prereq =>
         decide (prereq.status = Status.mastered) ||
         decide (masteryThreshold ≤ prereq.familiarity)) := by
  have hs := byId_sim i h
  cases hb : byId l i with
  | none =>
      cases hb' : byId l' i with
      | none => rfl
      | some b => rw [hb, hb'] at hs; exact False.elim hs
  | some a =>
      cases hb' : byId l' i with
      | none => rw [hb, hb'] at hs; exact False.elim hs
      | some b =>
          rw [hb, hb'] at hs
          obtain ⟨_, hfam, hmast⟩ := hs
          show (decide (a.status = Status.mastered) ||
              decide (masteryThreshold ≤ a.familiarity)) =
            (decide (b.status = Status.mastered) ||
              decide (masteryThreshold ≤ b.familiarity))
          rw [hfam, decide_eq_decide.mpr hmast]

/-- The prerequisite check only sees the `simR` data of the state. -/
theorem meetsPrereqs_sim {l l' : List LearnNode} (masteryThreshold : Int)
    (n : LearnNode) (h : SimL l l') :
    meetsPrereqs l masteryThreshold n = meetsPrereqs l' masteryThreshold n := by
  unfold meetsPrereqs
  induction n.prerequisites with
  | nil => rfl
  | cons i is ih =>
      simp only [List.all_cons]
      rw [prereqCheck_sim masteryThreshold h i, ih]

/-- Predicate of the snapshot formulation: the node is locked and its
prerequisite check passes against the pre-call state. -/
def unlockCond (records : List LearnNode) (masteryThreshold : Int)
    (n : LearnNode) : Bool :=
  decide (n.status = .locked) && meetsPrereqs records masteryThreshold n

/-- The zipper pass agrees with the snapshot evaluation: at every step the
already-visited prefix is `simR`-equal to its snapshot, so each node's
check coincides with the snapshot check. -/
theorem unlockGoZ_eq (masteryThreshold : Int) (orig : List LearnNode) :
    ∀ (rest done done₀ : List LearnNode),
      orig = done₀ ++ rest → SimL done₀ done →
      unlockGoZ masteryThreshold done rest =
        (done ++ rest.map (fun n =>
            if unlockCond orig masteryThreshold n then setAvailable n else n),
         (rest.filter (unlockCond orig masteryThreshold)).map setAvailable) := by
  intro rest
  induction rest with
  | nil =>
      intro done done₀ horig hsim
      simp [unlockGoZ]
  | cons n rest ih =>
      intro done done₀ horig hsim
      have hkey : meetsPrereqs (done ++ n :: rest) masteryThreshold n =
          meetsPrereqs orig masteryThreshold n := by
        rw [horig]
        exact (meetsPrereqs_sim masteryThreshold n
          (SimL_append hsim (SimL_refl (n :: rest)))).symm
      have hcond : (decide (n.status = .locked) &&
          meetsPrereqs (done ++ n :: rest) masteryThreshold n) =
          unlockCond orig masteryThreshold n := by
        rw [unlockCond, hkey]
      by_cases hc : unlockCond orig masteryThreshold n = true
      · have hlocked : n.status = .locked := by
          have := hc
          rw [unlockCond, Bool.and_eq_true] at this
          exact of_decide_eq_true this.1
        have hsim' : SimL (done₀ ++ [n]) (done ++ [setAvailable n]) := by
          refine SimL_append hsim (.cons ?_ .nil)
          refine ⟨rfl, rfl, ?_⟩
          rw [hlocked]
          simp [setAvailable]
        have horig' : orig = (done₀ ++ [n]) ++ rest := by
          rw [horig]; simp
        have hrec := ih (done ++ [setAvailable n]) (done₀ ++ [n]) horig' hsim'
        simp only [unlockGoZ, hcond, hc, if_true, hrec]
        simp [hc, List.filter_cons]
      · have hc' : unlockCond orig masteryThreshold n = false := by
          simpa using hc
        have hsim' : SimL (done₀ ++ [n]) (done ++ [n]) :=
          SimL_append hsim (.cons (simR_refl n) .nil)
        have horig' : orig = (done₀ ++ [n]) ++ rest := by
          rw [horig]; simp
        have hrec := ih (done ++ [n]) (done₀ ++ [n]) horig' hsim'
        simp only [unlockGoZ, hcond, hc', Bool.false_eq_true, if_false, hrec]
        simp [hc', List.filter_cons]

/-- C8: unlock resolution is single-pass and equals evaluating every
locked node's prerequisite check against the pre-call snapshot — a node
unlocked during the pass never changes the outcome for a later node. -/
theorem unlockEligibleNodes_single_pass (records : List LearnNode)
    (masteryThreshold : Int) :
    unlockEligibleNodes records masteryThreshold =
      unlockSnapshot records masteryThreshold := by
  have h := unlockGoZ_eq masteryThreshold records records [] []
    (by rw [List.nil_append]) SimL.nil
  unfold unlockEligibleNodes unlockSnapshot
  rw [h]
  simp only [List.nil_append]
  rfl

theorem meetsPrereqs_iff (l : List LearnNode) (masteryThreshold : Int)
    (n : LearnNode) :
    meetsPrereqs l masteryThreshold n = true ↔
      ∀ id ∈ n.prerequisites, ∃ p, byId l id = some p ∧
        (p.status = Status.mastered ∨ masteryThreshold ≤ p.familiarity) := by
  unfold meetsPrereqs
  rw [List.all_eq_true]
  constructor
  · intro h id hid
    have hx := h id hid
    cases hb : byId l id with
    | none =>
        rw [hb] at hx
        have hx' : false = true := hx
        exact absurd hx' (by decide)
    | some p =>
        rw [hb] at hx
        have hx' : (decide (p.status = Status.mastered) ||
            decide (masteryThreshold ≤ p.familiarity)) = true := hx
        exact ⟨p, rfl, by simpa using hx'⟩
  · intro h id hid
    obtain ⟨p, hp, hcond⟩ := h id hid
    show (match byId l id with
      | none => false
      | some prereq =>
          decide (prereq.status = Status.mastered) ||
          decide (masteryThreshold ≤ prereq.familiarity)) = true
    rw [hp]
    rcases hcond with hc | hc <;> simp [hc]

/-- C2: `unlockEligibleNodes` returns exactly the nodes it flipped from
`locked` to `available`, flips a locked node iff its `unlockCond` holds,
and `unlockCond` holds iff the node is locked and every prerequisite id
resolves (through the last-wins `byId` lookup) to a node that is
`mastered` or has familiarity at or above the threshold — so a
prerequisite id absent from the collection is never satisfied, and an
empty prerequisite list is vacuously satisfied. -/
theorem unlockEligibleNodes_spec (records : List LearnNode)
    (masteryThreshold : Int) :
    (unlockEligibleNodes records masteryThreshold).2 =
      (records.filter (unlockCond records masteryThreshold)).map setAvailable ∧
    (unlockEligibleNodes records masteryThreshold).1 =
      records.map (fun n =>
        if unlockCond records masteryThreshold n then setAvailable n else n) ∧
    (∀ n, unlockCond records masteryThreshold n = true ↔
      (n.status = Status.locked ∧
        ∀ id ∈ n.prerequisites, ∃ p, byId records id = some p ∧
          (p.status = Status.mastered ∨ masteryThreshold ≤ p.familiarity))) := by
  have h := unlockGoZ_eq masteryThreshold records records [] []
    (by rw [List.nil_append]) SimL.nil
  unfold unlockEligibleNodes
  rw [h]
  refine ⟨rfl, by simp, ?_⟩
  intro n
  rw [unlockCond, Bool.and_eq_true, decide_eq_true_eq,
    meetsPrereqs_iff records masteryThreshold n]

/-! ## Next-node selector theorems

`selectBy` embeds `list.sort(cmp)[0]`.  The lemmas below show it returns
the first element, in input order, whose key is minimal (`firstMinBy`) —
the stable-sort tie-break policy. -/

theorem ltLex_irrefl (a : Int × Int) : ltLex a a = false := by
  simp [ltLex]

theorem ltLex_asymm {a b : Int × Int} (h : ltLex a b = true) :
    ltLex b a = false := by
  simp only [ltLex, Bool.or_eq_true, Bool.and_eq_true, decide_eq_true_eq,
    Bool.or_eq_false_iff, Bool.and_eq_false_iff, decide_eq_false_iff_not] at h ⊢
  omega

theorem ltLex_trans {a b c : Int × Int} (h1 : ltLex a b = true)
    (h2 : ltLex b c = true) : ltLex a c = true := by
  simp only [ltLex, Bool.or_eq_true, Bool.and_eq_true,
    decide_eq_true_eq] at h1 h2 ⊢
  omega

theorem ltLex_eq_of_not {a b : Int × Int} (h1 : ltLex a b = false)
    (h2 : ltLex b a = false) : a = b := by
  simp only [ltLex, Bool.or_eq_false_iff, Bool.and_eq_false_iff,
    decide_eq_false_iff_not] at h1 h2
  have hfst : a.1 = b.1 := by omega
  have hsnd : a.2 = b.2 := by omega
  exact Prod.ext hfst hsnd

theorem selectFold_mem (key : LearnNode → Int × Int) :
    ∀ (l : List LearnNode) (a : LearnNode), selectFold key a l ∈ a :: l := by
  intro l
  induction l with
  | nil => intro a; simp [selectFold]
  | cons x l ih =>
      intro a
      show selectFold key (if ltLex (key x) (key a) then x else a) l ∈ a :: x :: l
      rcases List.mem_cons.mp (ih (if ltLex (key x) (key a) then x else a)) with
        h1 | h1
      · rw [h1]
        split
        · exact List.mem_cons_of_mem _ (List.mem_cons_self _ _)
        · exact List.mem_cons_self _ _
      · exact List.mem_cons_of_mem _ (List.mem_cons_of_mem _ h1)

/-- Decomposition of the fold result: the selected element splits the
input into a strict-greater prefix and a not-smaller suffix — i.e. it is
the first element, in input order, with minimal key. -/
theorem selectFold_decomp (key : LearnNode → Int × Int) :
    ∀ (l : List LearnNode) (a : LearnNode),
      ∃ l₁ l₂, a :: l = l₁ ++ selectFold key a l :: l₂ ∧
        (∀ x ∈ l₁, ltLex (key (selectFold key a l)) (key x) = true) ∧
        (∀ x ∈ l₂, ltLex (key x) (key (selectFold key a l)) = false) := by
  intro l
  induction l with
  | nil =>
      intro a
      exact ⟨[], [], by simp [selectFold], by simp, by simp⟩
  | cons x l ih =>
      intro a
      by_cases h : ltLex (key x) (key a) = true
      · have hsel : selectFold key a (x :: l) = selectFold key x l := by
          simp [selectFold, List.foldl_cons, h]
        rw [hsel]
        obtain ⟨l₁, l₂, heq, hleft, hright⟩ := ih x
        have hca : ltLex (key (selectFold key x l)) (key a) = true := by
          cases l₁ with
          | nil =>
              simp only [List.nil_append] at heq
              injection heq with h1 _
              rw [← h1]
              exact h
          | cons y t =>
              simp only [List.cons_append] at heq
              injection heq with h1 _
              have hy := hleft y (List.mem_cons_self _ _)
              rw [← h1] at hy
              exact ltLex_trans hy h
        refine ⟨a :: l₁, l₂, ?_, ?_, hright⟩
        · exact congrArg (List.cons a) heq
        · intro z hz
          rcases List.mem_cons.mp hz with h1 | h1
          · rw [h1]; exact hca
          · exact hleft z h1
      · have hb : ltLex (key x) (key a) = false := by
          simpa using h
        have hsel : selectFold key a (x :: l) = selectFold key a l := by
          simp [selectFold, List.foldl_cons, hb]
        rw [hsel]
        obtain ⟨l₁, l₂, heq, hleft, hright⟩ := ih a
        cases l₁ with
        | nil =>
            simp only [List.nil_append] at heq
            injection heq with h1 h2
            refine ⟨[], x :: l, ?_, by simp, ?_⟩
            · simp only [List.nil_append]
              exact congrArg (fun z => z :: x :: l) h1
            · intro z hz
              rcases List.mem_cons.mp hz with h3 | h3
              · rw [h3, ← h1]
                exact hb
              · rw [h2] at h3
                exact hright z h3
        | cons y t =>
            simp only [List.cons_append] at heq
            injection heq with h1 h2
            have hcy := hleft y (List.mem_cons_self _ _)
            have hca : ltLex (key (selectFold key a l)) (key a) = true := by
              rw [← h1] at hcy; exact hcy
            have hcx : ltLex (key (selectFold key a l)) (key x) = true := by
              by_cases hax : ltLex (key a) (key x) = true
              · exact ltLex_trans hca hax
              · have hax' : ltLex (key a) (key x) = false := by simpa using hax
                have hkeq : key a = key x := ltLex_eq_of_not hax' hb
                rw [← hkeq]
                exact hca
            refine ⟨a :: x :: t, l₂, ?_, ?_, hright⟩
            · exact congrArg (fun z => a :: x :: z) h2
            · intro z hz
              rcases List.mem_cons.mp hz with h3 | h3
              · rw [h3]; exact hca
              · rcases List.mem_cons.mp h3 with h4 | h4
                · rw [h4]; exact hcx
                · exact hleft z (List.mem_cons_of_mem _ h4)

theorem find?_first (p : LearnNode → Bool) :
    ∀ (l₁ : List LearnNode) (c : LearnNode) (l₂ : List LearnNode),
      (∀ x ∈ l₁, p x = false) → p c = true →
      (l₁ ++ c :: l₂).find? p = some c := by
  intro l₁
  induction l₁ with
  | nil =>
      intro c l₂ _ hc
      simp [List.find?_cons, hc]
  | cons x t ih =>
      intro c l₂ hl hc
      have hx : p x = false := hl x (List.mem_cons_self _ _)
      simp only [List.cons_append, List.find?_cons, hx]
      exact ih c l₂ (fun z hz => hl z (List.mem_cons_of_mem _ hz)) hc

theorem selectBy_eq_firstMinBy (key : LearnNode → Int × Int)
    (l : List LearnNode) : selectBy key l = firstMinBy key l := by
  cases l with
  | nil => rfl
  | cons n rest =>
      obtain ⟨l₁, l₂, heq, hleft, hright⟩ := selectFold_decomp key rest n
      show some (selectFold key n rest) = firstMinBy key (n :: rest)
      unfold firstMinBy
      rw [heq]
      rw [find?_first]
      · intro x hx
        have hcx := hleft x hx
        have hmem : selectFold key n rest ∈ l₁ ++ selectFold key n rest :: l₂ :=
          List.mem_append_right _ (List.mem_cons_self _ _)
        apply Bool.eq_false_iff.mpr
        intro hall
        have := (List.all_eq_true.mp hall) _ hmem
        rw [hcx] at this
        exact absurd this (by decide)
      · rw [List.all_eq_true]
        intro m hm
        rcases List.mem_append.mp hm with h1 | h1
        · have := hleft m h1
          rw [ltLex_asymm this]
          rfl
        · rcases List.mem_cons.mp h1 with h2 | h2
          · rw [h2, ltLex_irrefl]
            rfl
          · rw [hright m h2]
            rfl

theorem selectBy_mem {key : LearnNode → Int × Int} {l : List LearnNode}
    {c : LearnNode} (h : selectBy key l = some c) : c ∈ l := by
  cases l with
  | nil => exact absurd h (by simp [selectBy])
  | cons n rest =>
      have hc : selectFold key n rest = c := by
        have h' : some (selectFold key n rest) = some c := h
        injection h'
      rw [← hc]
      exact selectFold_mem key rest n

theorem mem_unlockedNodes_status {records : List LearnNode} {c : LearnNode}
    (h : c ∈ unlockedNodes records) : c.status ≠ .locked := by
  have := (List.mem_filter.mp h).2
  simpa using this

/-- C5: whenever some non-locked node is due (`nextReview <= now`), the
selector answers with reason `due-review`, and the chosen node is the
first node, in input order, among the due nodes with the earliest
`nextReview` (stable tie-break). -/
theorem pickNextNode_due_review (records : List LearnNode) (now : Int)
    (h : ∃ n ∈ records, n.status ≠ .locked ∧
      ∃ t, n.nextReview = some t ∧ t ≤ now) :
    (pickNextNode records now).reason = some "due-review" ∧
    (pickNextNode records now).node =
      firstMinBy dueKey (dueNodes records now) ∧
    ∃ c, (pickNextNode records now).node = some c ∧
      c ∈ dueNodes records now := by
  obtain ⟨n, hmem, hstat, t, hnr, hle⟩ := h
  have hdue : n ∈ dueNodes records now := by
    unfold dueNodes unlockedNodes
    refine List.mem_filter.mpr ⟨List.mem_filter.mpr ⟨hmem, ?_⟩, ?_⟩
    · simpa using hstat
    · unfold dueFilter
      rw [hnr]
      simpa using hle
  have hne : dueNodes records now ≠ [] := by
    intro hnil
    rw [hnil] at hdue
    exact absurd hdue (List.not_mem_nil n)
  have hlen : 0 < (dueNodes records now).length := List.length_pos.mpr hne
  have hpick : pickNextNode records now =
      { node := selectBy dueKey (dueNodes records now)
        reason := some "due-review" } := by
    simp only [pickNextNode]
    rw [if_pos hlen]
  rw [hpick]
  refine ⟨rfl, selectBy_eq_firstMinBy _ _, ?_⟩
  cases hsel : selectBy dueKey (dueNodes records now) with
  | none =>
      cases hl : dueNodes records now with
      | nil => exact absurd hl hne
      | cons a as =>
          rw [hl] at hsel
          exact absurd hsel (by simp [selectBy])
  | some c => exact ⟨c, rfl, selectBy_mem hsel⟩

/-- Witness for C5: node F (in progress, due at 100 ms) next to the
available node D forces a `due-review` answer. -/
theorem pickNextNode_due_review_witness :
    (pickNextNode [nodeD, nodeF] t0).reason = some "due-review" ∧
    (pickNextNode [nodeD, nodeF] t0).node =
      firstMinBy dueKey (dueNodes [nodeD, nodeF] t0) ∧
    ∃ c, (pickNextNode [nodeD, nodeF] t0).node = some c ∧
      c ∈ dueNodes [nodeD, nodeF] t0 :=
  pickNextNode_due_review [nodeD, nodeF] t0
    ⟨nodeF, by decide, by decide, 100, rfl, by decide⟩

/-- C7: with no due review anywhere and at least one available node, the
selector answers `new-available`, choosing the first available node, in
input order, with minimal (familiarity, created-or-epoch) key; the chosen
node's status is `available` (an in-progress node of lower familiarity is
never chosen over it). -/
theorem pickNextNode_new_available (records : List LearnNode) (now : Int)
    (h1 : ∀ n ∈ records, n.status ≠ .locked →
      ∀ t, n.nextReview = some t → now < t)
    (h2 : ∃ n ∈ records, n.status = .available) :
    (pickNextNode records now).reason = some "new-available" ∧
    (pickNextNode records now).node =
      firstMinBy availKey (availableNodes records) ∧
    ∀ c, (pickNextNode records now).node = some c →
      c.status = .available := by
  have hdue : dueNodes records now = [] := by
    unfold dueNodes
    rw [List.filter_eq_nil_iff]
    intro n hn
    have hn' := List.mem_filter.mp hn
    have hst : n.status ≠ .locked := by simpa using hn'.2
    unfold dueFilter
    cases hnr : n.nextReview with
    | none => simp
    | some t =>
        have hlt := h1 n hn'.1 hst t hnr
        simp
        omega
  obtain ⟨n, hmem, hav⟩ := h2
  have havmem : n ∈ availableNodes records := by
    unfold availableNodes unlockedNodes
    refine List.mem_filter.mpr ⟨List.mem_filter.mpr ⟨hmem, ?_⟩, ?_⟩
    · simp [hav]
    · simp [hav]
  have hne : availableNodes records ≠ [] := by
    intro hnil
    rw [hnil] at havmem
    exact absurd havmem (List.not_mem_nil n)
  have hlen : 0 < (availableNodes records).length := List.length_pos.mpr hne
  have hpick : pickNextNode records now =
      { node := selectBy availKey (availableNodes records)
        reason := some "new-available" } := by
    simp only [pickNextNode]
    rw [hdue]
    rw [if_neg (by simp), if_pos hlen]
  rw [hpick]
  refine ⟨rfl, selectBy_eq_firstMinBy _ _, ?_⟩
  intro c hc
  have hmemc := selectBy_mem (l := availableNodes records) hc
  have := (List.mem_filter.mp hmemc).2
  simpa using this

/-- Witness for C7: scenario 5 — D available with familiarity 1, E in
progress with familiarity 0, no due reviews; D is chosen. -/
theorem pickNextNode_new_available_witness :
    (pickNextNode [nodeD, nodeE] t0).reason = some "new-available" ∧
    (pickNextNode [nodeD, nodeE] t0).node =
      firstMinBy availKey (availableNodes [nodeD, nodeE]) ∧
    ∀ c, (pickNextNode [nodeD, nodeE] t0).node = some c →
      c.status = .available :=
  pickNextNode_new_available [nodeD, nodeE] t0
    (by
      intro n hn hst t ht
      rcases List.mem_cons.mp hn with h | h
      · rw [h] at ht
        exact Option.noConfusion ht
      · rcases List.mem_cons.mp h with h' | h'
        · rw [h'] at ht
          exact Option.noConfusion ht
        · exact absurd h' (List.not_mem_nil n))
    ⟨nodeD, by decide, rfl⟩

/-- C9: the selector never returns a locked node, under any of the three
reason tiers. -/
theorem pickNextNode_never_locked (records : List LearnNode) (now : Int)
    (c : LearnNode) (h : (pickNextNode records now).node = some c) :
    c.status ≠ .locked := by
  simp only [pickNextNode] at h
  by_cases h1 : 0 < (dueNodes records now).length
  · rw [if_pos h1] at h
    have hsel : selectBy dueKey (dueNodes records now) = some c := h
    exact mem_unlockedNodes_status (List.mem_filter.mp (selectBy_mem hsel)).1
  · rw [if_neg h1] at h
    by_cases h2 : 0 < (availableNodes records).length
    · rw [if_pos h2] at h
      have hsel : selectBy availKey (availableNodes records) = some c := h
      exact mem_unlockedNodes_status (List.mem_filter.mp (selectBy_mem hsel)).1
    · rw [if_neg h2] at h
      by_cases h3 : 0 < (inProgressNodes records).length
      · rw [if_pos h3] at h
        have hsel : selectBy progKey (inProgressNodes records) = some c := h
        exact mem_unlockedNodes_status
          (List.mem_filter.mp (selectBy_mem hsel)).1
      · rw [if_neg h3] at h
        exact absurd (h : (none : Option LearnNode) = some c) (by simp)

/-- Witness for C9 at the scenario-5 collection. -/
theorem pickNextNode_never_locked_witness :
    (pickNextNode [nodeD, nodeE] t0).node = some nodeD ∧
    nodeD.status ≠ .locked :=
  ⟨by decide, pickNextNode_never_locked [nodeD, nodeE] t0 nodeD (by decide)⟩

/-! ## Node creation defaults -/

/-- C6 counterexample: `buildNodeContents` writes
`status: input.status || "available"` without consulting `prerequisites`,
so a new node declaring the prerequisite `"a"` and no explicit status is
written with status `available`, not `locked`. -/
theorem buildNodeContents_locked_default_cex :
    (buildNodeContents inputB "2024-01-01T00:00:00.000Z").prerequisites ≠ [] ∧
    (buildNodeContents inputB "2024-01-01T00:00:00.000Z").status =
      "available" ∧
    (buildNodeContents inputB "2024-01-01T00:00:00.000Z").status ≠ "locked" := by
  decide

/-- C6 (amended): a newly written node with no explicit status always gets
status `available` — regardless of its prerequisites — together with
familiarity 0, srs stage 0 and null review timestamps; the
locked-if-prerequisites default exists only in `loadNodes`, applying when
the stored front matter has no (or an empty) `status` field. -/
theorem buildNodeContents_defaults (input : NodeInput) (now : String)
    (h : input.status = none ∨ input.status = some "") :
    (buildNodeContents input now).status = "available" ∧
    (buildNodeContents input now).familiarity = 0 ∧
    (buildNodeContents input now).srs_stage = 0 ∧
    (buildNodeContents input now).last_reviewed = none ∧
    (buildNodeContents input now).next_review = none ∧
    ∀ (dataStatus : Option String) (prerequisites : List String),
      (dataStatus = none ∨ dataStatus = some "") →
      loadNodeStatus dataStatus prerequisites =
        (if prerequisites = [] then Status.available else Status.locked) := by
  refine ⟨?_, rfl, rfl, rfl, rfl, ?_⟩
  · show jsOrStr input.status "available" = "available"
    rcases h with h | h <;> rw [h] <;> simp [jsOrStr]
  · intro ds prerequisites hds
    have hds' : jsOrStr ds
        (if prerequisites.length ≠ 0 then "locked" else "available") =
        (if prerequisites.length ≠ 0 then "locked" else "available") := by
      rcases hds with h' | h' <;> rw [h'] <;> simp [jsOrStr]
    unfold loadNodeStatus
    rw [hds']
    cases prerequisites with
    | nil => simp [normalizeStatus]
    | cons p ps => simp [normalizeStatus]

/-- Witness for the amended C6 at the prerequisite-bearing input B. -/
theorem buildNodeContents_defaults_witness :
    (buildNodeContents inputB "2024-01-01T00:00:00.000Z").status =
      "available" ∧
    (buildNodeContents inputB "2024-01-01T00:00:00.000Z").familiarity = 0 ∧
    (buildNodeContents inputB "2024-01-01T00:00:00.000Z").srs_stage = 0 ∧
    (buildNodeContents inputB "2024-01-01T00:00:00.000Z").last_reviewed
      = none ∧
    (buildNodeContents inputB "2024-01-01T00:00:00.000Z").next_review
      = none ∧
    ∀ (dataStatus : Option String) (prerequisites : List String),
      (dataStatus = none ∨ dataStatus = some "") →
      loadNodeStatus dataStatus prerequisites =
        (if prerequisites = [] then Status.available else Status.locked) :=
  buildNodeContents_defaults inputB "2024-01-01T00:00:00.000Z" (Or.inl rfl)

end Loom
